import Mathlib

/-!
Verification of the PyinstallerExtractor core (src/src/main.rs) against its
natural-language specification.

The Rust program is shallowly embedded: byte buffers are `List Nat` (each
element a byte value), u32/u8 machine arithmetic is `Nat` with explicit
`% 4294967296` (resp. `% 256`) where wrap-around matters (release-build
semantics of Rust integer overflow), fallible operations return
`Except String _` mirroring the `expect` panic messages of the source, and
the output filesystem is an explicit association list from destination
paths to written byte contents.  The zlib decoder (external crate flate2)
is abstracted as a function parameter of the extraction engine.
-/

/-- Decidable equality on `Except` results so that concrete runs of the
embedded functions can be settled by `decide`. -/
instance {ε α : Type} [DecidableEq ε] [DecidableEq α] : DecidableEq (Except ε α) :=
  fun x y =>
    match x, y with
    | .ok a, .ok b =>
      if h : a = b then .isTrue (congrArg Except.ok h)
      else .isFalse (fun he => h (Except.ok.inj he))
    | .error a, .error b =>
      if h : a = b then .isTrue (congrArg Except.error h)
      else .isFalse (fun he => h (Except.error.inj he))
    | .ok _, .error _ => .isFalse (fun he => Except.noConfusion he)
    | .error _, .ok _ => .isFalse (fun he => Except.noConfusion he)

/-- Tag byte of the nested frozen-code (pyz) container, source line 18: b\x7bz\x7d = 122. -/
def ARCHIVE_ITEM_PYZ : Nat := 122

/-- Tag byte of a Python source module, source line 19: b\x7bs\x7d = 115. -/
def ARCHIVE_ITEM_PYSOURCE : Nat := 115

/-- The fixed 8-byte archive marker, source lines 77-80. -/
def PYINST_MAGIC_BASE : List Nat := [77, 69, 73, 12, 11, 10, 11, 14]

/-- Big-endian u32 read of the first four bytes of a buffer
(`u32::from_be_bytes`); bytes are reduced mod 256 so the value is < 2^32. -/
def readU32BE (bs : List Nat) : Nat :=
  (bs.getD 0 0 % 256) * 16777216 + (bs.getD 1 0 % 256) * 65536 +
    (bs.getD 2 0 % 256) * 256 + bs.getD 3 0 % 256

/-- A parsed TOC entry, source lines 45-53.  `offset` is stored already
rebased by `parse_entry` (relative offset plus the overlay base passed in). -/
structure PyinstEntry where
  size : Nat
  offset : Nat
  compressed_size : Nat
  uncompressed_size : Nat
  compression_flag : Nat
  type_ : Nat
  name : List Nat
deriving DecidableEq, Repr

/-- The fixed 24-byte big-endian archive header, source lines 58-64. -/
structure PyinstHeader where
  signature : List Nat
  package_size : Nat
  toc_offset : Nat
  toc_size : Nat
  python_version : Nat
deriving DecidableEq, Repr

/-- Left-to-right scan of every suffix for the 8-byte marker, returning the
index of the first match (`file_content.windows(8).position(...)`, source
line 203).  A suffix shorter than 8 bytes can never equal the 8-byte marker,
so scanning past the last full window does not change the result. -/
def findSigFrom : List Nat → Nat → Option Nat
  | [], _ => none
  | b :: rest, i =>
    if (b :: rest).take 8 = PYINST_MAGIC_BASE then some i
    else findSigFrom rest (i + 1)

/-- Signature locator over the whole buffer, source line 203. -/
def findSignature (content : List Nat) : Option Nat :=
  findSigFrom content 0

/-- The locator as used by `main`: a missing marker is the fatal
`expect("Invalid pyinstaller archive")`, source line 203. -/
def locateHeader (content : List Nat) : Except String Nat :=
  match findSignature content with
  | some i => .ok i
  | none => .error "Invalid pyinstaller archive"

/-- `parse_header` (source lines 169-176): binrw reads 24 big-endian bytes at
the discovered offset; fewer than 24 remaining bytes is a read failure. -/
def parseHeader (content : List Nat) (off : Nat) : Option PyinstHeader :=
  let bs := content.drop off
  if bs.length < 24 then none
  else
    some { signature := bs.take 8
           package_size := readU32BE (bs.drop 8)
           toc_offset := readU32BE (bs.drop 12)
           toc_size := readU32BE (bs.drop 16)
           python_version := readU32BE (bs.drop 20) }

/-- Number of bytes strictly after the header's 24-byte fixed region
(source lines 209-214: seek to `offset + size_of::<PyinstHeader>()` and
read to end; seeking past EOF reads 0 bytes, hence the truncated Nat
subtraction). -/
def tailSize (content : List Nat) (off : Nat) : Nat :=
  content.length - (off + 24)

/-- `overlay_offset = filesize - header.package_size - tail_size`,
source line 220 (usize arithmetic; theorems about it carry the
no-underflow hypothesis `package_size + tailSize <= filesize`). -/
def overlayOffset (content : List Nat) (off : Nat) (packageSize : Nat) : Nat :=
  content.length - packageSize - tailSize content off

/-- Absolute file position at which `main` starts reading the TOC:
`overlay_offset + header.toc_offset + 64`, source line 225.  Note the
hard-coded constant 64, not the measured tail size. -/
def tocStreamPos (content : List Nat) (off : Nat) (hdr : PyinstHeader) : Nat :=
  overlayOffset content off hdr.package_size + hdr.toc_offset + 64

/-- Modelled from the spec: the spec's own offset-resolution rule
"base_offset + trailing_size + relative value" (spec section 4.3), stated
here only to be compared against the code's resolution rule. -/
def specResolve (baseOffset trailingSize rel : Nat) : Nat :=
  baseOffset + trailingSize + rel

/-- The wrapping u32 computation `size - (4 * 4 + 1 + 1)` of source line 142,
release-build semantics: for `sz < 18` the subtraction wraps modulo 2^32. -/
def nameSizeOf (sz : Nat) : Nat :=
  (sz + 4294967296 - 18) % 4294967296

/-- Truncation of the raw name bytes at the first zero byte
(source lines 147-149: `position(b == 0)` then `truncate(pos)`). -/
def truncAtZero : List Nat → List Nat
  | [] => []
  | b :: rest => if b = 0 then [] else b :: truncAtZero rest

/-- The ASCII bytes of the appended extension ".pyc", source line 154. -/
def pycExt : List Nat := [46, 112, 121, 99]

/-- `parse_entry` (source lines 127-167).  `stream` is the remaining file
bytes at the cursor; `ov` is the `overlay_offset + 64` argument.  Reads the
18-byte fixed prefix (failing like `read_exact.expect("Read error")` when
fewer bytes remain), rebases the relative offset by `ov as u32` with u32
wrap-around, computes the name length with the wrapping subtraction of
`nameSizeOf`, reads that many name bytes (again a fatal read error when
fewer remain), truncates the name at the first zero byte and appends
".pyc" for source-module entries.  The UTF-8 validity check of
`String::from_utf8` is not modelled; names stay byte lists. -/
def parseEntry (stream : List Nat) (ov : Nat) :
    Except String (PyinstEntry × List Nat) :=
  if stream.length < 18 then .error "Read error"
  else
    let sz := readU32BE stream
    let off := (readU32BE (stream.drop 4) + ov % 4294967296) % 4294967296
    let csz := readU32BE (stream.drop 8)
    let usz := readU32BE (stream.drop 12)
    let flag := stream.getD 16 0
    let ty := stream.getD 17 0
    let nameSize := nameSizeOf sz
    let rest := stream.drop 18
    if rest.length < nameSize then .error "Read error"
    else
      let nm := truncAtZero (rest.take nameSize)
      .ok ({ size := sz, offset := off, compressed_size := csz,
             uncompressed_size := usz, compression_flag := flag, type_ := ty,
             name := if ty = ARCHIVE_ITEM_PYSOURCE then nm ++ pycExt else nm },
           rest.drop nameSize)

/-- The TOC parse loop of `main` (source lines 235-248): while
`bytes_read < header.toc_size`, parse one entry, add its `size` to
`bytes_read` and append it.  The loop is written with explicit fuel so that
it computes by reduction; every iteration consumes at least 18 stream bytes,
so `stream.length + 1` units of fuel (supplied by `parseToc`) can never run
out before the loop exits or a read fails. -/
def parseTocAux (ov t : Nat) : Nat → List Nat → Nat →
    Except String (List PyinstEntry × Nat)
  | 0, _, _ => .error "unreachable: fuel exhausted"
  | fuel + 1, stream, bytesRead =>
    if t ≤ bytesRead then .ok ([], bytesRead)
    else
      match parseEntry stream ov with
      | .error s => .error s
      | .ok (e, rest) =>
        match parseTocAux ov t fuel rest (bytesRead + e.size) with
        | .error s => .error s
        | .ok (toc, br) => .ok (e :: toc, br)

/-- The whole TOC parse phase on a TOC byte stream: loop from
`bytes_read = 0` (source line 227). -/
def parseToc (stream : List Nat) (ov t : Nat) :
    Except String (List PyinstEntry × Nat) :=
  parseTocAux ov t (stream.length + 1) stream 0

/-- The byte range `file_content[entry.offset .. entry.offset +
entry.compressed_size]` (source lines 90 and 239).  The end index is a u32
addition and wraps; an out-of-range or inverted range is a panic in the
source, here `none`. -/
def entrySlice (content : List Nat) (e : PyinstEntry) : Option (List Nat) :=
  let s := e.offset
  let t := (e.offset + e.compressed_size) % 4294967296
  if s ≤ t ∧ t ≤ content.length then some ((content.take t).drop s) else none

/-- Reading the nested-container (pyz) header from an entry's byte range
(source lines 239-243): binrw little-endian `PyzHeader` needs 12 bytes
(magic[4], version[4], toc_offset u32); the 4 version bytes are returned.
A failing slice is the indexing panic, a short slice the
`expect("Invalid pyz header")`. -/
def pyzVersion (content : List Nat) (e : PyinstEntry) :
    Except String (List Nat) :=
  match entrySlice content e with
  | none => .error "entry range out of bounds"
  | some s => if s.length < 12 then .error "Invalid pyz header"
              else .ok ((s.drop 4).take 4)

/-- Initial value of the process-wide magic: `let mut pyc_magic = [0u8; 16]`,
source line 233. -/
def pycMagicInit : List Nat := List.replicate 16 0

/-- The magic-updating walk of the TOC parse loop (source lines 238-244):
for each entry tagged as the pyz container, read its version bytes and copy
them into the low 4 bytes of the magic (`pyc_magic[..4].copy_from_slice`). -/
def computeMagicAux (content : List Nat) :
    List PyinstEntry → List Nat → Except String (List Nat)
  | [], magic => .ok magic
  | e :: rest, magic =>
    if e.type_ = ARCHIVE_ITEM_PYZ then
      match pyzVersion content e with
      | .error s => .error s
      | .ok v => computeMagicAux content rest (v ++ magic.drop 4)
    else computeMagicAux content rest magic

/-- The final `pyc_magic` after the whole TOC walk. -/
def computeMagic (content : List Nat) (toc : List PyinstEntry) :
    Except String (List Nat) :=
  computeMagicAux content toc pycMagicInit

/-- The sub-list of nested-container entries of a TOC, in walk order. -/
def pyzFilter (toc : List PyinstEntry) : List PyinstEntry :=
  toc.filter (fun e => e.type_ == ARCHIVE_ITEM_PYZ)

/-- The guard under which `write_nested_file` writes the 16-byte magic
prefix (source lines 103-108): only inside the deflate branch
(`compression_flag == 1`), and only when `pyc_magic[0] != 0` and the entry
is a source module. -/
def magicPrefixWritten (e : PyinstEntry) (magic : List Nat) : Bool :=
  e.compression_flag == 1 && (magic.headD 0 != 0 && e.type_ == ARCHIVE_ITEM_PYSOURCE)

/-- The guard of the "Cannot find the python header..." diagnostic of
`main` (source lines 253-255): printed exactly when `pyc_magic[0] == 0`. -/
def diagnosticPrinted (magic : List Nat) : Bool :=
  magic.headD 0 == 0

/-- Backslash normalization of an entry name before joining
(source lines 84-88: replace every b\x7b\\\x7d = 92 by b\x7b/\x7d = 47 when one occurs). -/
def normSlashes (name : List Nat) : List Nat :=
  if name.contains 92 then name.map (fun b => if b = 92 then 47 else b) else name

/-- Path components of a byte string: split on the separator byte 47 and
drop empty components (mirroring `std::path::Path` component iteration,
which collapses repeated and trailing separators). -/
def splitSegs (bs : List Nat) : List (List Nat) :=
  (bs.splitOn 47).filter (fun s => !s.isEmpty)

/-- A destination path: whether it is absolute, and its components. -/
abbrev DestPath := Bool × List (List Nat)

/-- `base_path.join(name)` of source lines 84-88: an absolute name replaces
the base entirely (the semantics of `PathBuf::join`), otherwise the name's
components are appended to the output root's components. -/
def joinedPath (base : List (List Nat)) (name : List Nat) : DestPath :=
  let n := normSlashes name
  if n.headD 0 = 47 then (true, splitSegs n) else (false, base ++ splitSegs n)

/-- Resolution of parent-directory components: a ".." pops the previous
component (dropping through the root when none is left), other components
are stacked.  Used only to judge whether a destination stays under the
output root; the program itself performs no such resolution. -/
def resolveDots : List (List Nat) → List (List Nat) → List (List Nat)
  | acc, [] => acc.reverse
  | acc, s :: rest =>
    if s = [46, 46] then resolveDots (acc.drop 1) rest
    else if s = [46] then resolveDots acc rest
    else resolveDots (s :: acc) rest

/-- A destination lies under the output root when it is not absolute and,
after resolving "." and ".." components, the root's components are still a
prefix of it. -/
def underRoot (base : List (List Nat)) (dest : DestPath) : Bool :=
  !dest.1 && base.isPrefixOf (resolveDots [] dest.2)

/-- The output filesystem: an association list from destination path to the
bytes written there.  A path is present exactly when a file exists at it. -/
abbrev Fs := List (DestPath × List Nat)

/-- `full_path.exists()` on the modelled filesystem, source line 92. -/
def pathMem (p : DestPath) (fs : Fs) : Bool :=
  fs.any (fun q => decide (q.1 = p))

/-- `write_nested_file` (source lines 82-125).  `inflate` abstracts the
flate2 zlib decoder.  Mirrors the source order exactly: the byte-range
slice is taken (and can fail) before the existence check; an existing
destination is skipped with success; a deflate entry is inflated and, when
the magic-prefix guard holds, prefixed with the 16 magic bytes; a stored
entry is copied verbatim.  Directory creation has no observable effect in
this model and is omitted. -/
def writeNestedFile (inflate : List Nat → Except String (List Nat))
    (fs : Fs) (base : List (List Nat)) (e : PyinstEntry)
    (content : List Nat) (magic : List Nat) : Except String Fs :=
  let fullPath := joinedPath base e.name
  match entrySlice content e with
  | none => .error "entry range out of bounds"
  | some slice =>
    if pathMem fullPath fs then .ok fs
    else
      if e.compression_flag = 1 then
        match inflate slice with
        | .error s => .error s
        | .ok inflated =>
          .ok ((fullPath,
                (if magic.headD 0 ≠ 0 ∧ e.type_ = ARCHIVE_ITEM_PYSOURCE
                 then magic else []) ++ inflated) :: fs)
      else .ok ((fullPath, slice) :: fs)

/-- The extraction phase of `main` (source lines 258-262):
`write_nested_file(..).expect("Write error")` for each entry.  A failing
entry panics, which aborts the run; the Boolean records whether the run
aborted (non-zero process exit) and the filesystem holds what was written
before the abort.  Entries of one rayon chunk are processed strictly
sequentially in the source; chunks are modelled sequentially as well. -/
def runExtraction (inflate : List Nat → Except String (List Nat))
    (base : List (List Nat)) (content : List Nat) (magic : List Nat) :
    List PyinstEntry → Fs → Bool × Fs
  | [], fs => (false, fs)
  | e :: rest, fs =>
    match writeNestedFile inflate fs base e content magic with
    | .error _ => (true, fs)
    | .ok fs1 => runExtraction inflate base content magic rest fs1

/-- A trivial stand-in decoder used to evaluate the extraction engine on
concrete stored entries (whose branch never calls the decoder) and on
closed examples. -/
def inflateId : List Nat → Except String (List Nat) := fun bs => .ok bs

/-- A minimal 24-byte input: the file is exactly the archive header
(marker at offset 0, `package_size` 24, `toc_offset` 8), so the measured
tail size is 0 while the code still shifts by the constant 64. -/
def FILE0 : List Nat :=
  PYINST_MAGIC_BASE ++ [0, 0, 0, 24] ++ [0, 0, 0, 8] ++ [0, 0, 0, 0] ++ [0, 0, 0, 0]

/-- The header encoded in `FILE0`. -/
def HDR0 : PyinstHeader := ⟨PYINST_MAGIC_BASE, 24, 8, 0, 0⟩

/-- A complete 122-byte archive: 64 junk bytes, one 22-byte stored data
entry named "a" (payload at rebased offset 96), padding, the 2-byte payload,
and the 24-byte header (`package_size` 122, `toc_offset` 0, `toc_size` 22,
`python_version` 310) at the end of the file, so the tail size is 0. -/
def FILE1 : List Nat :=
  List.replicate 64 0 ++
    [0, 0, 0, 22, 0, 0, 0, 32, 0, 0, 0, 2, 0, 0, 0, 2, 0, 120, 97, 0, 0, 0] ++
    List.replicate 10 0 ++ [104, 105] ++
    (PYINST_MAGIC_BASE ++ [0, 0, 0, 122] ++ [0, 0, 0, 0] ++ [0, 0, 0, 22] ++
      [0, 0, 1, 54])

/-- The header encoded in `FILE1` (found at offset 98). -/
def HDR1 : PyinstHeader := ⟨PYINST_MAGIC_BASE, 122, 0, 22, 310⟩

/-- The single TOC entry of `FILE1` as parsed with overlay base 64. -/
def E1FILE : PyinstEntry := ⟨22, 96, 2, 2, 0, 120, [97]⟩

/-- An 18-byte TOC record whose size field is 17 (< 18). -/
def S17 : List Nat := [0, 0, 0, 17] ++ List.replicate 14 0

/-- A 27-byte TOC record: a deflate source-module entry whose 9 name bytes
are "foo.py" followed by three zero padding bytes. -/
def FOO : List Nat :=
  [0, 0, 0, 27, 0, 0, 0, 0, 0, 0, 0, 5, 0, 0, 0, 9, 1, 115] ++
    [102, 111, 111, 46, 112, 121, 0, 0, 0]

/-- The entry parsed from `FOO` (with overlay base 0): the name decodes to
"foo.py" and the source-module rule appends ".pyc", giving "foo.py.pyc". -/
def EFOO : PyinstEntry :=
  ⟨27, 0, 5, 9, 1, 115, [102, 111, 111, 46, 112, 121, 46, 112, 121, 99]⟩

/-- A 24-byte buffer holding two 12-byte nested-container headers with
version bytes [1,2,3,4] and [5,6,7,8]. -/
def K5 : List Nat :=
  [1, 1, 1, 1, 1, 2, 3, 4, 0, 0, 0, 0, 2, 2, 2, 2, 5, 6, 7, 8, 0, 0, 0, 0]

/-- A nested-container entry covering bytes [0, 12). -/
def EZ1 : PyinstEntry := ⟨0, 0, 12, 0, 0, 122, []⟩

/-- A nested-container entry covering bytes [12, 24). -/
def EZ2 : PyinstEntry := ⟨0, 12, 12, 0, 0, 122, []⟩

/-- A 12-byte buffer holding one nested-container header whose version
field's first byte is 0 (version bytes [0,3,3,3]). -/
def KD : List Nat := [9, 9, 9, 9, 0, 3, 3, 3, 0, 0, 0, 0]

/-- The magic derived from `KD` with the single entry `EZ1`. -/
def MD : List Nat := [0, 3, 3, 3] ++ List.replicate 12 0

/-- A 24-byte buffer holding two nested-container headers: version bytes
[0,1,1,1] (first byte zero) then [9,1,1,1] (first byte nonzero). -/
def K2 : List Nat :=
  [0, 0, 0, 0, 0, 1, 1, 1, 0, 0, 0, 0, 0, 0, 0, 0, 9, 1, 1, 1, 0, 0, 0, 0]

/-- A deflate source-module entry with an empty byte range. -/
def ESRC : PyinstEntry := ⟨0, 0, 0, 0, 1, 115, [97]⟩

/-- The magic derived from `K2` with entries `EZ1, EZ2`: the second
(last-encountered) container wins, first byte 9. -/
def MK2 : List Nat := [9, 1, 1, 1] ++ List.replicate 12 0

/-- An output root with the single component "out". -/
def OUTBASE : List (List Nat) := [[111, 117, 116]]

/-- The entry name "../evil". -/
def NAMEEVIL : List Nat := [46, 46, 47, 101, 118, 105, 108]

/-- The absolute entry name "/evil". -/
def NAMEABS : List Nat := [47, 101, 118, 105, 108]

/-- A stored entry named "../evil" covering bytes [0, 2). -/
def EEVIL : PyinstEntry := ⟨0, 0, 2, 2, 0, 120, NAMEEVIL⟩

/-- A 2-byte file buffer. -/
def CONT3 : List Nat := [104, 105]

/-- A 2-byte file buffer for the abort example. -/
def CONT4 : List Nat := [7, 8]

/-- An entry whose byte range [100, 105) exceeds the 2-byte buffer. -/
def EBAD : PyinstEntry := ⟨0, 100, 5, 0, 0, 120, [98]⟩

/-- A well-formed stored entry named "c" covering bytes [0, 1). -/
def EGOOD : PyinstEntry := ⟨0, 0, 1, 1, 0, 120, [99]⟩

/-- A well-formed stored entry named "a" covering bytes [0, 2). -/
def E8 : PyinstEntry := ⟨0, 0, 2, 2, 0, 120, [97]⟩

/-- The filesystem after extracting `E8` from `CONT3` under `OUTBASE`. -/
def FS8 : Fs := [(joinedPath OUTBASE [97], [104, 105])]

/-- An entry named "a" whose byte range [5, 6) exceeds the 2-byte buffer. -/
def EEX : PyinstEntry := ⟨0, 5, 1, 0, 0, 120, [97]⟩

/-- A filesystem in which the destination of `EEX` already exists. -/
def FSX : Fs := [(joinedPath OUTBASE [97], [9])]

/-- A 30-byte TOC stream holding a single record whose declared size 30
overruns a declared TOC size of 22. -/
def STREAM6 : List Nat :=
  [0, 0, 0, 30, 0, 0, 0, 0, 0, 0, 0, 0, 0, 0, 0, 0, 0, 120] ++ [97] ++
    List.replicate 11 0

/-- The entry parsed from `STREAM6` (with overlay base 0). -/
def E6 : PyinstEntry := ⟨30, 0, 0, 0, 0, 120, [97]⟩

/-- A 9-byte buffer whose marker match is at offset 1, not 0. -/
def C9W : List Nat := 1 :: PYINST_MAGIC_BASE

lemma findSigFrom_some :
    ∀ (l : List Nat) (i k : Nat), findSigFrom l i = some k →
      i ≤ k ∧ (l.drop (k - i)).take 8 = PYINST_MAGIC_BASE ∧
        ∀ j, j < k - i → (l.drop j).take 8 ≠ PYINST_MAGIC_BASE := by
  intro l
  induction l with
  | nil => intro i k h; simp [findSigFrom] at h
  | cons b rest ih =>
    intro i k h
    by_cases hm : (b :: rest).take 8 = PYINST_MAGIC_BASE
    · rw [findSigFrom, if_pos hm, Option.some.injEq] at h
      subst h
      exact ⟨le_refl i, by simpa using hm, by intro j hj; omega⟩
    · rw [findSigFrom, if_neg hm] at h
      obtain ⟨h1, h2, h3⟩ := ih (i + 1) k h
      refine ⟨by omega, ?_, ?_⟩
      · have hk : k - i = (k - (i + 1)) + 1 := by omega
        rw [hk, List.drop_succ_cons]
        exact h2
      · intro j hj
        cases j with
        | zero => simpa using hm
        | succ j =>
          rw [List.drop_succ_cons]
          exact h3 j (by omega)

lemma findSigFrom_none :
    ∀ (l : List Nat) (i : Nat), findSigFrom l i = none →
      ∀ j, (l.drop j).take 8 ≠ PYINST_MAGIC_BASE := by
  intro l
  induction l with
  | nil => intro i _ j; simp [PYINST_MAGIC_BASE]
  | cons b rest ih =>
    intro i h j
    by_cases hm : (b :: rest).take 8 = PYINST_MAGIC_BASE
    · rw [findSigFrom, if_pos hm] at h
      exact Option.noConfusion h
    · rw [findSigFrom, if_neg hm] at h
      cases j with
      | zero => simpa using hm
      | succ j =>
        rw [List.drop_succ_cons]
        exact ih (i + 1) h j

lemma truncAtZero_eq_takeWhile (bs : List Nat) :
    truncAtZero bs = bs.takeWhile (fun b => !(b == 0)) := by
  induction bs with
  | nil => rfl
  | cons b rest ih =>
    by_cases hb : b = 0
    · subst hb; simp [truncAtZero, List.takeWhile_cons]
    · simp [truncAtZero, hb, List.takeWhile_cons, ih]

lemma parseTocAux_ok (ov t : Nat) :
    ∀ (fuel : Nat) (stream : List Nat) (bytesRead : Nat)
      (toc : List PyinstEntry) (br : Nat),
      parseTocAux ov t fuel stream bytesRead = .ok (toc, br) →
      t ≤ br ∧ br = bytesRead + (toc.map PyinstEntry.size).sum := by
  intro fuel
  induction fuel with
  | zero =>
    intro stream bytesRead toc br h
    exact Except.noConfusion h
  | succ fuel ih =>
    intro stream bytesRead toc br h
    rw [parseTocAux] at h
    split at h
    · rw [Except.ok.injEq, Prod.mk.injEq] at h
      obtain ⟨h1, h2⟩ := h
      subst h1; subst h2
      constructor
      · omega
      · simp
    · split at h
      · exact Except.noConfusion h
      · rename_i e rest hpe
        split at h
        · exact Except.noConfusion h
        · rename_i toc2 br2 hrec
          rw [Except.ok.injEq, Prod.mk.injEq] at h
          obtain ⟨h1, h2⟩ := h
          subst h1; subst h2
          obtain ⟨ha, hb⟩ := ih rest (bytesRead + e.size) toc2 br2 hrec
          refine ⟨ha, ?_⟩
          simp only [List.map_cons, List.sum_cons]
          omega

lemma pyzVersion_length {content : List Nat} {e : PyinstEntry} {v : List Nat}
    (h : pyzVersion content e = .ok v) : v.length = 4 := by
  unfold pyzVersion at h
  split at h
  · exact Except.noConfusion h
  · split at h
    · exact Except.noConfusion h
    · rename_i s hs hlen
      rw [Except.ok.injEq] at h
      subst h
      simp only [List.length_take, List.length_drop]
      omega

lemma computeMagicAux_no_pyz {content : List Nat} :
    ∀ (toc : List PyinstEntry) (m : List Nat), pyzFilter toc = [] →
      computeMagicAux content toc m = .ok m := by
  intro toc
  induction toc with
  | nil => intro m _; rfl
  | cons e rest ih =>
    intro m h
    unfold pyzFilter at h
    rw [List.filter_cons] at h
    by_cases h122 : e.type_ = ARCHIVE_ITEM_PYZ
    · simp [h122] at h
    · rw [if_neg (by simp [h122])] at h
      unfold computeMagicAux
      rw [if_neg h122]
      exact ih m h

lemma computeMagicAux_last {content : List Nat} :
    ∀ (toc l : List PyinstEntry) (e : PyinstEntry) (v m : List Nat),
      pyzFilter toc = l ++ [e] →
      (∀ x ∈ l, ∃ w, pyzVersion content x = .ok w) →
      pyzVersion content e = .ok v →
      computeMagicAux content toc m = .ok (v ++ m.drop 4) := by
  intro toc
  induction toc with
  | nil =>
    intro l e v m hfil _ _
    simp [pyzFilter] at hfil
  | cons e0 rest ih =>
    intro l e v m hfil hall hv
    rw [pyzFilter, List.filter_cons] at hfil
    by_cases h122 : e0.type_ = ARCHIVE_ITEM_PYZ
    · rw [if_pos (by simp [h122])] at hfil
      cases l with
      | nil =>
        simp only [List.nil_append, List.cons.injEq] at hfil
        obtain ⟨he0, hrest⟩ := hfil
        subst he0
        unfold computeMagicAux
        rw [if_pos h122]
        simp only [hv]
        exact computeMagicAux_no_pyz rest (v ++ m.drop 4) hrest
      | cons x l2 =>
        simp only [List.cons_append, List.cons.injEq] at hfil
        obtain ⟨hex, hrest⟩ := hfil
        obtain ⟨w, hw⟩ := hall x (by simp)
        subst hex
        unfold computeMagicAux
        rw [if_pos h122]
        simp only [hw]
        have hrec := ih l2 e v (w ++ m.drop 4) hrest
          (fun y hy => hall y (by simp [hy])) hv
        rw [hrec]
        have hw4 : w.length = 4 := pyzVersion_length hw
        rw [show (w ++ m.drop 4).drop 4 = m.drop 4 from by
          rw [← hw4, List.drop_left]]
    · rw [if_neg (by simp [h122])] at hfil
      unfold computeMagicAux
      rw [if_neg h122]
      exact ih l e v m hfil hall hv

lemma pathMem_mono_write {inflate : List Nat → Except String (List Nat)}
    {fs : Fs} {base : List (List Nat)} {e : PyinstEntry}
    {content magic : List Nat} {fs1 : Fs}
    (h : writeNestedFile inflate fs base e content magic = .ok fs1) :
    (∃ s, entrySlice content e = some s) ∧
    pathMem (joinedPath base e.name) fs1 = true ∧
    ∀ p, pathMem p fs = true → pathMem p fs1 = true := by
  simp only [writeNestedFile] at h
  split at h
  · exact Except.noConfusion h
  · rename_i slice hs
    refine ⟨⟨slice, hs⟩, ?_⟩
    split at h
    · rename_i hmem
      rw [Except.ok.injEq] at h
      subst h
      exact ⟨hmem, fun p hp => hp⟩
    · rename_i hmem
      split at h
      · split at h
        · exact Except.noConfusion h
        · rename_i inflated hin
          rw [Except.ok.injEq] at h
          subst h
          constructor
          · simp [pathMem]
          · intro p hp
            simp only [pathMem, List.any_cons, Bool.or_eq_true] at hp ⊢
            exact Or.inr hp
      · rw [Except.ok.injEq] at h
        subst h
        constructor
        · simp [pathMem]
        · intro p hp
          simp only [pathMem, List.any_cons, Bool.or_eq_true] at hp ⊢
          exact Or.inr hp

lemma writeNestedFile_skip (inflate : List Nat → Except String (List Nat))
    (fs : Fs) (base : List (List Nat)) (e : PyinstEntry)
    (content magic : List Nat) {s : List Nat}
    (hs : entrySlice content e = some s)
    (hmem : pathMem (joinedPath base e.name) fs = true) :
    writeNestedFile inflate fs base e content magic = .ok fs := by
  simp [writeNestedFile, hs, hmem]

lemma pathMem_mono_run {inflate : List Nat → Except String (List Nat)}
    {base : List (List Nat)} {content magic : List Nat} :
    ∀ (toc : List PyinstEntry) (fs fs1 : Fs),
      runExtraction inflate base content magic toc fs = (false, fs1) →
      ∀ p, pathMem p fs = true → pathMem p fs1 = true := by
  intro toc
  induction toc with
  | nil =>
    intro fs fs1 h p hp
    rw [runExtraction, Prod.mk.injEq] at h
    obtain ⟨-, h2⟩ := h
    subst h2
    exact hp
  | cons e rest ih =>
    intro fs fs1 h p hp
    rw [runExtraction] at h
    split at h
    · rw [Prod.mk.injEq] at h
      exact Bool.noConfusion h.1
    · rename_i fs2 hw
      exact ih fs2 fs1 h p ((pathMem_mono_write hw).2.2 p hp)

lemma runExtraction_idem {inflate : List Nat → Except String (List Nat)}
    {base : List (List Nat)} {content magic : List Nat} :
    ∀ (toc : List PyinstEntry) (fs fs1 : Fs),
      runExtraction inflate base content magic toc fs = (false, fs1) →
      runExtraction inflate base content magic toc fs1 = (false, fs1) := by
  intro toc
  induction toc with
  | nil =>
    intro fs fs1 h
    rw [runExtraction, Prod.mk.injEq] at h
    obtain ⟨-, h2⟩ := h
    subst h2
    rfl
  | cons e rest ih =>
    intro fs fs1 h
    rw [runExtraction] at h
    split at h
    · rw [Prod.mk.injEq] at h
      exact Bool.noConfusion h.1
    · rename_i fs2 hw
      obtain ⟨⟨s, hs⟩, hmem2, -⟩ := pathMem_mono_write hw
      have hmem1 : pathMem (joinedPath base e.name) fs1 = true :=
        pathMem_mono_run rest fs2 fs1 h _ hmem2
      have hskip := writeNestedFile_skip inflate fs1 base e content magic
        hs hmem1
      rw [runExtraction, hskip]
      exact ih fs2 fs1 h

/-- C1, counterexample.  On the 24-byte input `FILE0` the marker is found at
offset 0, the measured trailing size is 0, yet the code positions the TOC at
`base_offset + toc_offset + 64` = 72, not at the claimed
`base_offset + trailing_size + toc_offset` = 8: offsets are resolved with
the fixed constant 64, refuting the claim as stated. -/
theorem C1_counterexample :
    locateHeader FILE0 = .ok 0 ∧ parseHeader FILE0 0 = some HDR0 ∧
    tailSize FILE0 0 = 0 ∧
    tocStreamPos FILE0 0 HDR0 ≠
      specResolve (overlayOffset FILE0 0 HDR0.package_size) (tailSize FILE0 0)
        HDR0.toc_offset := by decide

/-- C1, amended.  For every input in which the marker is found and whose
header does not make the usize arithmetic underflow, the base offset is
`filesize - package_size - trailing_size` (first conjunct), and both the
TOC location and every parsed entry offset are resolved as
`base_offset + 64 + relative value` with the fixed constant 64 (second and
third conjuncts), the entry offset with u32 wrap-around. -/
theorem C1_amended_offsets (content : List Nat) (off : Nat)
    (hdr : PyinstHeader) (stream : List Nat) (e : PyinstEntry)
    (rest : List Nat)
    (_h1 : locateHeader content = .ok off)
    (_h2 : parseHeader content off = some hdr)
    (h3 : hdr.package_size + tailSize content off ≤ content.length)
    (h4 : parseEntry stream (overlayOffset content off hdr.package_size + 64) =
      .ok (e, rest)) :
    overlayOffset content off hdr.package_size +
      (tailSize content off + hdr.package_size) = content.length ∧
    tocStreamPos content off hdr =
      overlayOffset content off hdr.package_size + 64 + hdr.toc_offset ∧
    e.offset = (readU32BE (stream.drop 4) +
      (overlayOffset content off hdr.package_size + 64)) % 4294967296 := by
  refine ⟨?_, ?_, ?_⟩
  · simp only [overlayOffset]
    omega
  · simp only [tocStreamPos]
    omega
  · simp only [parseEntry] at h4
    split at h4
    · exact Except.noConfusion h4
    · split at h4
      · exact Except.noConfusion h4
      · rw [Except.ok.injEq, Prod.mk.injEq] at h4
        obtain ⟨he, -⟩ := h4
        subst he
        dsimp only
        omega

/-- C1 amended, witness at the concrete archive `FILE1` (marker at 98,
trailing size 0, overlay 0, entry offset 32 + 64 = 96). -/
theorem C1_amended_offsets_witness :
    tocStreamPos FILE1 98 HDR1 =
      overlayOffset FILE1 98 HDR1.package_size + 64 + HDR1.toc_offset ∧
    E1FILE.offset = (readU32BE ((FILE1.drop 64).drop 4) +
      (overlayOffset FILE1 98 HDR1.package_size + 64)) % 4294967296 := by
  have t := C1_amended_offsets FILE1 98 HDR1 (FILE1.drop 64) E1FILE
    (FILE1.drop 86) (by decide) (by decide) (by decide) (by decide)
  exact ⟨t.2.1, t.2.2⟩

/-- C2, evaluation at the failing input.  A TOC record whose size field is
17 (< 18) makes the release-build u32 subtraction of source line 142 wrap
to the huge name length 4294967295; parsing then dies in the generic
`read_exact.expect("Read error")` while trying to read that many name
bytes, not in a corruption check at the subtraction. -/
theorem C2_wrapping_eval :
    nameSizeOf 17 = 4294967295 ∧ readU32BE S17 = 17 ∧
    parseEntry S17 0 = .error "Read error" := by decide

/-- C3, evaluation at the failing inputs.  The entry names "../evil" and
"/evil" resolve outside the output root "out", and `write_nested_file`
performs no rejection or sanitization: the "../evil" entry is written,
with success, at the escaping destination.  A plain name such as "a" does
stay under the root. -/
theorem C3_path_escape_eval :
    underRoot OUTBASE (joinedPath OUTBASE NAMEEVIL) = false ∧
    underRoot OUTBASE (joinedPath OUTBASE NAMEABS) = false ∧
    underRoot OUTBASE (joinedPath OUTBASE [97]) = true ∧
    writeNestedFile inflateId [] OUTBASE EEVIL CONT3 pycMagicInit =
      .ok [(joinedPath OUTBASE NAMEEVIL, [104, 105])] := by decide

/-- C4, evaluation at the failing input.  With a first entry whose byte
range [100, 105) exceeds the 2-byte buffer, the extraction phase aborts
(the `expect("Write error")` panic of source line 260): the run ends
aborted with nothing written, and the sibling entry — which on its own
would extract fine — is never extracted, refuting per-entry error
scoping. -/
theorem C4_abort_eval :
    runExtraction inflateId OUTBASE CONT4 pycMagicInit [EBAD, EGOOD] [] =
      (true, []) ∧
    pathMem (joinedPath OUTBASE EGOOD.name) [] = false ∧
    writeNestedFile inflateId [] OUTBASE EGOOD CONT4 pycMagicInit =
      Except.ok [(joinedPath OUTBASE EGOOD.name, [7])] :=
  ⟨by decide, by decide, by decide⟩

/-- C5, confirmed.  The derived magic is a function of the nested-container
entries in TOC walk order: with no such entry the magic stays all-zero and
the prefix guard is false for every entry; with the container entries being
`l ++ [e]` (so `e` is the last one encountered) and each reading
successfully, the final magic is `e`'s 4 version bytes followed by 12 zero
bytes — in particular, with exactly one container entry (`l = []`) its own
version bytes, and with several the last one wins. -/
theorem C5_bytecode_magic (content : List Nat) (toc : List PyinstEntry) :
    (pyzFilter toc = [] →
      computeMagic content toc = .ok pycMagicInit ∧
        ∀ e, magicPrefixWritten e pycMagicInit = false) ∧
    (∀ l e v, pyzFilter toc = l ++ [e] →
      (∀ x ∈ l, ∃ w, pyzVersion content x = .ok w) →
      pyzVersion content e = .ok v →
      computeMagic content toc = .ok (v ++ List.replicate 12 0)) := by
  constructor
  · intro h
    refine ⟨computeMagicAux_no_pyz toc pycMagicInit h, ?_⟩
    intro e
    simp [magicPrefixWritten, pycMagicInit]
  · intro l e v hfil hall hv
    have hm := computeMagicAux_last toc l e v pycMagicInit hfil hall hv
    rw [computeMagic, hm]
    rw [show pycMagicInit.drop 4 = List.replicate 12 0 from rfl]

/-- C5, witness: two nested-container entries with version bytes [1,2,3,4]
and [5,6,7,8]; the last one encountered determines the magic. -/
theorem C5_bytecode_magic_witness :
    computeMagic K5 [EZ1, EZ2] = .ok ([5, 6, 7, 8] ++ List.replicate 12 0) :=
  (C5_bytecode_magic K5 [EZ1, EZ2]).2 [EZ1] EZ2 [5, 6, 7, 8] (by decide)
    (by
      intro x hx
      rw [List.mem_singleton] at hx
      subst hx
      exact ⟨[1, 2, 3, 4], by decide⟩)
    (by decide)

/-- C6, counterexample.  A single record of declared size 30 against a
declared TOC size of 22 parses to completion with a plain success result
and consumed total 30 ≠ 22: no equality verification is performed and no
warning or error is surfaced, refuting the second half of the claim. -/
theorem C6_counterexample :
    parseToc STREAM6 0 22 = .ok ([E6], 30) ∧ (30 : Nat) ≠ 22 := by decide

/-- C6, amended.  The TOC parse loop terminates when the running consumed
total reaches or exceeds the declared TOC size — every successful parse has
`toc_size ≤ bytes_consumed`, with the consumed total the sum of the parsed
entries' size fields — but the code performs no equality verification
afterwards; a mismatch is accepted silently. -/
theorem C6_amended_termination (stream : List Nat) (ov t : Nat)
    (toc : List PyinstEntry) (br : Nat)
    (h : parseToc stream ov t = .ok (toc, br)) :
    t ≤ br ∧ br = (toc.map PyinstEntry.size).sum := by
  have hx := parseTocAux_ok ov t (stream.length + 1) stream 0 toc br h
  simpa using hx

/-- C6 amended, witness at the TOC stream of `FILE1` (one entry of size 22
against a declared TOC size of 22). -/
theorem C6_amended_termination_witness :
    22 ≤ 22 ∧ (22 : Nat) = ([E1FILE].map PyinstEntry.size).sum :=
  C6_amended_termination (FILE1.drop 64) 64 22 [E1FILE] 22 (by decide)

/-- C7, confirmed.  Every successfully parsed entry's name is the raw name
bytes truncated at the first zero byte, with ".pyc" appended exactly when
the tag byte (byte 17 of the record) is the source-module tag —
unconditionally, even when the truncated name already has an extension. -/
theorem C7_name_decoding (stream : List Nat) (ov : Nat) (e : PyinstEntry)
    (rest : List Nat) (h : parseEntry stream ov = .ok (e, rest)) :
    e.name = ((stream.drop 18).take (nameSizeOf (readU32BE stream))).takeWhile
        (fun b => !(b == 0)) ++
      (if e.type_ = ARCHIVE_ITEM_PYSOURCE then pycExt else []) ∧
    e.type_ = stream.getD 17 0 := by
  simp only [parseEntry] at h
  split at h
  · exact Except.noConfusion h
  · split at h
    · exact Except.noConfusion h
    · rw [Except.ok.injEq, Prod.mk.injEq] at h
      obtain ⟨he, -⟩ := h
      subst he
      refine ⟨?_, rfl⟩
      dsimp only
      by_cases hty : stream.getD 17 0 = ARCHIVE_ITEM_PYSOURCE
      · rw [if_pos hty, if_pos hty, truncAtZero_eq_takeWhile]
      · rw [if_neg hty, if_neg hty, truncAtZero_eq_takeWhile, List.append_nil]

/-- C7, witness: the record `FOO` with name bytes "foo.py" plus three zero
padding bytes and the source-module tag decodes to "foo.py.pyc". -/
theorem C7_name_decoding_witness :
    EFOO.name = ((FOO.drop 18).take (nameSizeOf (readU32BE FOO))).takeWhile
        (fun b => !(b == 0)) ++
      (if EFOO.type_ = ARCHIVE_ITEM_PYSOURCE then pycExt else []) ∧
    EFOO.name = [102, 111, 111, 46, 112, 121] ++ pycExt :=
  ⟨(C7_name_decoding FOO 0 EFOO [] (by decide)).1, by decide⟩

/-- C8, counterexample.  The byte-range slice of source line 90 is taken
before the existence check of line 92, so an entry whose destination
already exists but whose byte range exceeds the buffer is not skipped with
success: it fails, refuting the claim's universal per-entry clause. -/
theorem C8_counterexample :
    pathMem (joinedPath OUTBASE EEX.name) FSX = true ∧
    writeNestedFile inflateId FSX OUTBASE EEX CONT3 pycMagicInit =
      Except.error "entry range out of bounds" :=
  ⟨by decide, by decide⟩

/-- C8, amended.  An entry whose byte range lies within the buffer and
whose destination already exists is skipped and reported as success with
the filesystem unchanged; consequently a completed extraction run is
idempotent: rerunning it over its own output changes nothing, performs
zero overwrites, and finishes unaborted (exit 0). -/
theorem C8_amended_idempotence (inflate : List Nat → Except String (List Nat))
    (base : List (List Nat)) (content magic : List Nat)
    (toc : List PyinstEntry) (fs fs1 : Fs) (e : PyinstEntry) (s : List Nat)
    (h1 : entrySlice content e = some s)
    (h2 : pathMem (joinedPath base e.name) fs = true)
    (h3 : runExtraction inflate base content magic toc fs = (false, fs1)) :
    writeNestedFile inflate fs base e content magic = .ok fs ∧
    runExtraction inflate base content magic toc fs1 = (false, fs1) :=
  ⟨writeNestedFile_skip inflate fs base e content magic h1 h2,
    runExtraction_idem toc fs fs1 h3⟩

/-- C8 amended, witness: after the run that wrote entry `E8`, a rerun over
the same root skips it with success and leaves the filesystem unchanged. -/
theorem C8_amended_idempotence_witness :
    writeNestedFile inflateId FS8 OUTBASE E8 CONT3 pycMagicInit = .ok FS8 ∧
    runExtraction inflateId OUTBASE CONT3 pycMagicInit [E8] FS8 =
      (false, FS8) :=
  C8_amended_idempotence inflateId OUTBASE CONT3 pycMagicInit [E8] FS8 FS8 E8
    [104, 105] (by decide) (by decide) (by decide)

/-- C9, confirmed.  The signature locator scans left to right: a returned
offset carries the marker and every smaller offset does not (the smallest
match wins even when later matches exist), and when no window matches the
run fails fatally as an unrecognizable archive. -/
theorem C9_first_match (content : List Nat) :
    (∀ i, findSignature content = some i →
      (content.drop i).take 8 = PYINST_MAGIC_BASE ∧
        ∀ j, j < i → (content.drop j).take 8 ≠ PYINST_MAGIC_BASE) ∧
    (findSignature content = none →
      (∀ j, (content.drop j).take 8 ≠ PYINST_MAGIC_BASE) ∧
        locateHeader content = .error "Invalid pyinstaller archive") := by
  constructor
  · intro i h
    obtain ⟨h1, h2, h3⟩ := findSigFrom_some content 0 i h
    refine ⟨by simpa using h2, ?_⟩
    intro j hj
    exact h3 j (by omega)
  · intro h
    refine ⟨findSigFrom_none content 0 h, ?_⟩
    unfold locateHeader
    rw [show findSignature content = none from h]

/-- C9, witness: in `C9W` the marker occurs at offset 1 and the window at
offset 0 does not match. -/
theorem C9_first_match_witness :
    (C9W.drop 1).take 8 = PYINST_MAGIC_BASE :=
  ((C9_first_match C9W).1 1 (by decide)).1

/-- C10, counterexample.  The archive `K2` contains a nested-container
entry (`EZ1`) whose version field's first byte is 0, yet because a later
container entry (`EZ2`) has a nonzero first version byte, the final magic's
first byte is 9: the diagnostic is not printed and the prefix is written to
the compressed source-module entry, refuting the claim as stated. -/
theorem C10_counterexample :
    EZ1.type_ = ARCHIVE_ITEM_PYZ ∧
    pyzVersion K2 EZ1 = Except.ok [0, 1, 1, 1] ∧
    computeMagic K2 [EZ1, EZ2] = Except.ok MK2 ∧
    diagnosticPrinted MK2 = false ∧
    magicPrefixWritten ESRC MK2 = true :=
  ⟨by decide, by decide, by decide, by decide, by decide⟩

/-- C10, amended.  Presence of the bytecode magic is judged solely by the
first byte of the final 16-byte magic: when that byte is 0 the diagnostic
is printed and no entry gets the prefix; a stored (non-deflate) entry never
gets the prefix even with a nonzero magic; and the final magic's first byte
is 0 whenever the last nested-container entry's version starts with 0. -/
theorem C10_amended_magic_gate (content : List Nat) (toc : List PyinstEntry)
    (magic : List Nat) (h : computeMagic content toc = .ok magic) :
    (magic.headD 0 = 0 →
      diagnosticPrinted magic = true ∧
        ∀ e, magicPrefixWritten e magic = false) ∧
    (∀ e, ¬ e.compression_flag = 1 → magicPrefixWritten e magic = false) ∧
    (∀ l e v, pyzFilter toc = l ++ [e] →
      (∀ x ∈ l, ∃ w, pyzVersion content x = .ok w) →
      pyzVersion content e = .ok v → v.headD 0 = 0 →
      magic.headD 0 = 0) := by
  refine ⟨?_, ?_, ?_⟩
  · intro h0
    constructor
    · simp only [diagnosticPrinted, h0]
      rfl
    · intro e
      simp only [magicPrefixWritten, h0]
      simp
  · intro e he
    simp [magicPrefixWritten, he]
  · intro l e v hfil hall hv hv0
    have hm := computeMagicAux_last toc l e v pycMagicInit hfil hall hv
    rw [computeMagic, hm] at h
    have hmagic : v ++ pycMagicInit.drop 4 = magic := Except.ok.inj h
    subst hmagic
    have hl : v.length = 4 := pyzVersion_length hv
    cases v with
    | nil => simp at hl
    | cons a t =>
      simp only [List.cons_append, List.headD_cons] at hv0 ⊢
      exact hv0

/-- C10 amended, witness: the single-container archive `KD` whose version
first byte is 0 yields the all-gating magic `MD`: diagnostic printed, no
prefix on the compressed source-module entry. -/
theorem C10_amended_magic_gate_witness :
    diagnosticPrinted MD = true ∧ magicPrefixWritten ESRC MD = false := by
  have t := C10_amended_magic_gate KD [EZ1] MD (by decide)
  exact ⟨(t.1 (by decide)).1, (t.1 (by decide)).2 ESRC⟩
